import Mathlib

set_option maxHeartbeats 1600000

noncomputable section

/-!
Shallow embedding of `lib/pymafx/utils/geometry.py` over exact real arithmetic.

Batched tensor functions act independently on each batch element, so each
source function is embedded as a per-element function (suffix `1`) plus a
batch version defined as `List.map` over the batch dimension.  Machine floats
become real numbers; the epsilon constants (1e-6, 1e-8, 1e-9, 1e-12) of the
source are kept literally.
-/

/-- 2D point (one row of a `(B,2)` tensor). -/
structure Vec2 where
  x : ℝ
  y : ℝ

/-- 3D vector (one row of a `(B,3)` tensor). -/
structure Vec3 where
  x : ℝ
  y : ℝ
  z : ℝ

attribute [ext] Vec2 Vec3

/-- Quaternion `(w,x,y,z)`, real part first (one row of a `(B,4)` tensor). -/
structure Quat4 where
  w : ℝ
  x : ℝ
  y : ℝ
  z : ℝ

attribute [ext] Quat4

/-- 3x3 matrix, row major (one element of a `(B,3,3)` tensor). -/
structure Mat3 where
  m00 : ℝ
  m01 : ℝ
  m02 : ℝ
  m10 : ℝ
  m11 : ℝ
  m12 : ℝ
  m20 : ℝ
  m21 : ℝ
  m22 : ℝ

attribute [ext] Mat3

def Vec3.add (u v : Vec3) : Vec3 := ⟨u.x + v.x, u.y + v.y, u.z + v.z⟩

def Vec3.sub (u v : Vec3) : Vec3 := ⟨u.x - v.x, u.y - v.y, u.z - v.z⟩

def Vec3.smul (c : ℝ) (v : Vec3) : Vec3 := ⟨c * v.x, c * v.y, c * v.z⟩

def Vec3.divS (v : Vec3) (c : ℝ) : Vec3 := ⟨v.x / c, v.y / c, v.z / c⟩

def Vec3.dot (u v : Vec3) : ℝ := u.x * v.x + u.y * v.y + u.z * v.z

/-- `torch.cross` along the last dimension. -/
def Vec3.cross (u v : Vec3) : Vec3 :=
  ⟨u.y * v.z - u.z * v.y, u.z * v.x - u.x * v.z, u.x * v.y - u.y * v.x⟩

/-- Euclidean (`p=2`) norm, as in `torch.norm(..., p=2)`. -/
def Vec3.norm (v : Vec3) : ℝ := Real.sqrt (v.dot v)

/-- `torch.sum(..., dim=1)` of a 3-vector. -/
def Vec3.sum (v : Vec3) : ℝ := v.x + v.y + v.z

def Quat4.neg (q : Quat4) : Quat4 := ⟨-q.w, -q.x, -q.y, -q.z⟩

def Quat4.add (p q : Quat4) : Quat4 := ⟨p.w + q.w, p.x + q.x, p.y + q.y, p.z + q.z⟩

def Quat4.smul (c : ℝ) (q : Quat4) : Quat4 := ⟨c * q.w, c * q.x, c * q.y, c * q.z⟩

def Quat4.divS (q : Quat4) (c : ℝ) : Quat4 := ⟨q.w / c, q.x / c, q.y / c, q.z / c⟩

/-- `quat.norm(p=2, dim=1)`. -/
def Quat4.norm (q : Quat4) : ℝ := Real.sqrt (q.w ^ 2 + q.x ^ 2 + q.y ^ 2 + q.z ^ 2)

def Mat3.identity : Mat3 := ⟨1, 0, 0, 0, 1, 0, 0, 0, 1⟩

/-- Matrix-vector product (`torch.einsum('bij,bkj->bki', M, v)` per element). -/
def Mat3.mulVec (M : Mat3) (v : Vec3) : Vec3 :=
  ⟨M.m00 * v.x + M.m01 * v.y + M.m02 * v.z,
   M.m10 * v.x + M.m11 * v.y + M.m12 * v.z,
   M.m20 * v.x + M.m21 * v.y + M.m22 * v.z⟩

def Mat3.det (M : Mat3) : ℝ :=
  M.m00 * M.m11 * M.m22 + M.m01 * M.m12 * M.m20 + M.m02 * M.m10 * M.m21
    - M.m02 * M.m11 * M.m20 - M.m00 * M.m12 * M.m21 - M.m01 * M.m10 * M.m22

/-- Column `j = 0` of `M`. -/
def Mat3.col0 (M : Mat3) : Vec3 := ⟨M.m00, M.m10, M.m20⟩

def Mat3.col1 (M : Mat3) : Vec3 := ⟨M.m01, M.m11, M.m21⟩

def Mat3.col2 (M : Mat3) : Vec3 := ⟨M.m02, M.m12, M.m22⟩

/-- A valid rotation matrix: proper orthogonal (orthonormal columns,
determinant `+1`).  Inputs of the converter are assumed valid (spec section 3). -/
def IsRotation (R : Mat3) : Prop :=
  R.col0.dot R.col0 = 1 ∧ R.col1.dot R.col1 = 1 ∧ R.col2.dot R.col2 = 1 ∧
  R.col0.dot R.col1 = 0 ∧ R.col0.dot R.col2 = 0 ∧ R.col1.dot R.col2 = 0 ∧
  R.det = 1

/-- `quat_to_rotmat` (geometry.py lines 29-51), one batch element: re-normalize
the quaternion, then the standard bilinear expression in `(w,x,y,z)`. -/
def quat_to_rotmat1 (quat : Quat4) : Mat3 :=
  let n := quat.norm
  let w := quat.w / n
  let x := quat.x / n
  let y := quat.y / n
  let z := quat.z / n
  ⟨w ^ 2 + x ^ 2 - y ^ 2 - z ^ 2, 2 * x * y - 2 * w * z, 2 * w * y + 2 * x * z,
   2 * w * z + 2 * x * y, w ^ 2 - x ^ 2 + y ^ 2 - z ^ 2, 2 * y * z - 2 * w * x,
   2 * x * z - 2 * w * y, 2 * w * x + 2 * y * z, w ^ 2 - x ^ 2 - y ^ 2 + z ^ 2⟩

/-- `quat_to_rotmat` on a `(B,4)` batch. -/
def quat_to_rotmat (quats : List Quat4) : List Mat3 := quats.map quat_to_rotmat1

/-- `quaternion_to_rotation_matrix` (geometry.py lines 289-311), one batch
element; the source body is a verbatim copy of `quat_to_rotmat`. -/
def quaternion_to_rotation_matrix1 (quat : Quat4) : Mat3 :=
  let n := quat.norm
  let w := quat.w / n
  let x := quat.x / n
  let y := quat.y / n
  let z := quat.z / n
  ⟨w ^ 2 + x ^ 2 - y ^ 2 - z ^ 2, 2 * x * y - 2 * w * z, 2 * w * y + 2 * x * z,
   2 * w * z + 2 * x * y, w ^ 2 - x ^ 2 + y ^ 2 - z ^ 2, 2 * y * z - 2 * w * x,
   2 * x * z - 2 * w * y, 2 * w * x + 2 * y * z, w ^ 2 - x ^ 2 - y ^ 2 + z ^ 2⟩

/-- `quaternion_to_rotation_matrix` on a batch. -/
def quaternion_to_rotation_matrix (quats : List Quat4) : List Mat3 :=
  quats.map quaternion_to_rotation_matrix1

lemma quat_to_rotmat1_neg (q : Quat4) : quat_to_rotmat1 q.neg = quat_to_rotmat1 q := by
  have hn : (Quat4.neg q).norm = q.norm := by
    unfold Quat4.norm Quat4.neg
    ring_nf
  unfold quat_to_rotmat1
  rw [hn]
  unfold Quat4.neg
  ext <;> ring

/-- C2: quaternion sign invariance — on every batch of unit quaternions,
`quat_to_rotmat` returns elementwise identical matrices for `q` and `-q`. -/
theorem quat_to_rotmat_sign_invariant (qs : List Quat4)
    (hunit : ∀ q ∈ qs, q.norm = 1) :
    quat_to_rotmat (qs.map Quat4.neg) = quat_to_rotmat qs := by
  unfold quat_to_rotmat
  rw [List.map_map]
  apply List.map_congr_left
  intro q _
  exact quat_to_rotmat1_neg q

/-- Witness for C2 at the concrete unit quaternion `(1,0,0,0)`. -/
theorem quat_to_rotmat_sign_invariant_witness :
    quat_to_rotmat ([Quat4.mk 1 0 0 0].map Quat4.neg) = quat_to_rotmat [Quat4.mk 1 0 0 0] := by
  apply quat_to_rotmat_sign_invariant
  intro q hq
  simp only [List.mem_singleton] at hq
  subst hq
  simp [Quat4.norm, Real.sqrt_one]

/-- C10: `quat_to_rotmat` and `quaternion_to_rotation_matrix` agree on every
batch of quaternions with nonzero norm. -/
theorem quat_to_rotmat_eq_quaternion_to_rotation_matrix (qs : List Quat4)
    (hnz : ∀ q ∈ qs, q.norm ≠ 0) :
    quat_to_rotmat qs = quaternion_to_rotation_matrix qs := rfl

/-- Witness for C10 at the concrete quaternion `(1,0,0,0)`. -/
theorem quat_to_rotmat_eq_quaternion_to_rotation_matrix_witness :
    quat_to_rotmat [Quat4.mk 1 0 0 0] = quaternion_to_rotation_matrix [Quat4.mk 1 0 0 0] := by
  apply quat_to_rotmat_eq_quaternion_to_rotation_matrix
  intro q hq
  simp only [List.mem_singleton] at hq
  subst hq
  simp [Quat4.norm, Real.sqrt_one]

/-- `rotation_matrix_to_quaternion` (geometry.py lines 178-260), one batch
element, `eps = 1e-6`.  The source blends the four branch candidates with
boolean masks cast to floats; here the masks are the corresponding 0/1 real
indicators and the blend is kept literally.  `rmat_t` is the transpose, so
`rmat_t[i, j]` of the source is entry `(j, i)` of the input matrix. -/
def rotation_matrix_to_quaternion1 (R : Mat3) : Quat4 :=
  let md2 : ℝ := if R.m22 < 1e-6 then 1 else 0
  let md01 : ℝ := if R.m00 > R.m11 then 1 else 0
  let mnd01 : ℝ := if R.m00 < -R.m11 then 1 else 0
  let t0 := 1 + R.m00 - R.m11 - R.m22
  let q0 : Quat4 := ⟨R.m21 - R.m12, t0, R.m10 + R.m01, R.m02 + R.m20⟩
  let t1 := 1 - R.m00 + R.m11 - R.m22
  let q1 : Quat4 := ⟨R.m02 - R.m20, R.m10 + R.m01, t1, R.m21 + R.m12⟩
  let t2 := 1 - R.m00 - R.m11 + R.m22
  let q2 : Quat4 := ⟨R.m10 - R.m01, R.m02 + R.m20, R.m21 + R.m12, t2⟩
  let t3 := 1 + R.m00 + R.m11 + R.m22
  let q3 : Quat4 := ⟨t3, R.m21 - R.m12, R.m02 - R.m20, R.m10 - R.m01⟩
  let mc0 := md2 * md01
  let mc1 := md2 * (1 - md01)
  let mc2 := (1 - md2) * mnd01
  let mc3 := (1 - md2) * (1 - mnd01)
  let q := ((q0.smul mc0).add (q1.smul mc1)).add ((q2.smul mc2).add (q3.smul mc3))
  let tden := Real.sqrt (t0 * mc0 + t1 * mc1 + t2 * mc2 + t3 * mc3)
  (q.divS tden).smul 0.5

/-- `rotation_matrix_to_quaternion` on a `(B,3,3)` batch. -/
def rotation_matrix_to_quaternion (Rs : List Mat3) : List Quat4 :=
  Rs.map rotation_matrix_to_quaternion1

/-- A `(3,4)` rotation+translation-augmented matrix: the rotation block and the
appended fourth column. -/
structure Mat34 where
  rot : Mat3
  aug : Vec3

/-- `rotation_matrix_to_quaternion` applied to a 3x4 input.  The source's
`rmat_t[:, i, j]` accesses, for `i, j < 3`, read exactly the rotation block of
the 3x4 matrix; the fourth column never enters the computation. -/
def rotation_matrix_to_quaternion34 (M : Mat34) : Quat4 :=
  rotation_matrix_to_quaternion1 M.rot

/-- `torch.atan2(y, x)`: four-quadrant arctangent. -/
def atan2 (y x : ℝ) : ℝ :=
  if 0 < x then Real.arctan (y / x)
  else if x < 0 then
    (if 0 ≤ y then Real.arctan (y / x) + Real.pi else Real.arctan (y / x) - Real.pi)
  else
    (if 0 < y then Real.pi / 2 else if y < 0 then -(Real.pi / 2) else 0)

/-- `quaternion_to_angle_axis` (geometry.py lines 86-133), one batch element:
`sin²θ` from the vector part, branch on `sin²θ > 0`, sign-corrected `atan2`. -/
def quaternion_to_angle_axis1 (q : Quat4) : Vec3 :=
  let sin_squared_theta := q.x * q.x + q.y * q.y + q.z * q.z
  let sin_theta := Real.sqrt sin_squared_theta
  let cos_theta := q.w
  let two_theta :=
    2 * (if cos_theta < 0 then atan2 (-sin_theta) (-cos_theta) else atan2 sin_theta cos_theta)
  let k := if sin_squared_theta > 0 then two_theta / sin_theta else 2
  ⟨q.x * k, q.y * k, q.z * k⟩

/-- Padding of a 3x3 rotation matrix with the fixed extra column `(0,0,1)`
(`torch.cat([rot_mat, hom], dim=-1)`, geometry.py lines 76-78). -/
def pad_rotation (R : Mat3) : Mat34 := ⟨R, ⟨0, 0, 1⟩⟩

/-- The 3x4 call path of `rotation_matrix_to_angle_axis` (lines 80-83):
matrix → quaternion → angle-axis.  The source then zeroes NaN entries; over
exact real arithmetic no NaN arises and that step is the identity. -/
def rotation_matrix_to_angle_axis34 (M : Mat34) : Vec3 :=
  quaternion_to_angle_axis1 (rotation_matrix_to_quaternion34 M)

/-- `rotation_matrix_to_angle_axis` (lines 54-83) on a 3x3 input: pad with the
fixed `(0,0,1)` augmentation, then reuse the 3x4 pipeline. -/
def rotation_matrix_to_angle_axis1 (R : Mat3) : Vec3 :=
  rotation_matrix_to_angle_axis34 (pad_rotation R)

/-- `rotation_matrix_to_angle_axis` on a batch of 3x3 matrices. -/
def rotation_matrix_to_angle_axis (Rs : List Mat3) : List Vec3 :=
  Rs.map rotation_matrix_to_angle_axis1

/-- C9: the 3x3 call path of `rotation_matrix_to_angle_axis` equals the
matrix → quaternion → angle-axis pipeline applied to the `(0,0,1)`-padded
input, and the result does not depend on the padding column at all. -/
theorem rotation_matrix_to_angle_axis_pad_path (R : Mat3) :
    rotation_matrix_to_angle_axis1 R = rotation_matrix_to_angle_axis34 (pad_rotation R) ∧
    ∀ aug : Vec3, rotation_matrix_to_angle_axis34 ⟨R, aug⟩ = rotation_matrix_to_angle_axis1 R :=
  ⟨rfl, fun _ => rfl⟩

/-- Intrinsic matrix built by `perspective_projection` when `cam_intrinsics`
is not given (lines 451-455): focal length on the diagonal, camera center in
the last column, `K[2,2] = 1`. -/
def build_intrinsics (focal cx cy : ℝ) : Mat3 := ⟨focal, 0, cx, 0, focal, cy, 0, 0, 1⟩

/-- `perspective_projection` body for one point (lines 457-465): rotate, add
the translation, divide all three channels by the transformed Z coordinate,
then apply the intrinsic matrix. -/
def project_point (rotation : Mat3) (translation : Vec3) (K : Mat3) (p : Vec3) : Vec3 :=
  let q := (rotation.mulVec p).add translation
  let pr : Vec3 := ⟨q.x / q.z, q.y / q.z, q.z / q.z⟩
  K.mulVec pr

/-- `perspective_projection` with `retain_z=True` (lines 467-468): all three
channels of the projected points are returned. -/
def perspective_projection_retain_z (points : List Vec3) (rotation : Mat3)
    (translation : Vec3) (K : Mat3) : List Vec3 :=
  points.map (project_point rotation translation K)

/-- `perspective_projection` with `retain_z=False` (line 470): the last
channel is dropped. -/
def perspective_projection (points : List Vec3) (rotation : Mat3)
    (translation : Vec3) (K : Mat3) : List Vec2 :=
  points.map fun p =>
    ⟨(project_point rotation translation K p).x, (project_point rotation translation K p).y⟩

/-- C3 counterexample: for the point `(0,0,0)`, identity rotation, translation
`(0,0,2)` and intrinsics with focal 1 and center `(0,0)`, the `retain_z`
output's third channel is 1, not the camera-frame depth `(R p + t).z = 2`. -/
theorem perspective_projection_retain_z_not_depth :
    (perspective_projection_retain_z [Vec3.mk 0 0 0] Mat3.identity (Vec3.mk 0 0 2)
        (build_intrinsics 1 0 0)).map Vec3.z ≠
      [((Mat3.identity.mulVec (Vec3.mk 0 0 0)).add (Vec3.mk 0 0 2)).z] := by
  simp only [perspective_projection_retain_z, project_point, build_intrinsics,
    Mat3.mulVec, Mat3.identity, Vec3.add, List.map_cons, List.map_nil, ne_eq,
    List.cons.injEq, and_true]
  norm_num

/-- C3 amended: with `retain_z = true` the third output channel is the
perspective-divided homogeneous coordinate passed through the last row of the
intrinsics — constantly 1 for intrinsics built from a focal length and center
(last row `(0,0,1)`), whenever no transformed point has zero depth — and not
the un-divided camera-frame depth. -/
theorem perspective_projection_retain_z_last_channel (points : List Vec3)
    (rotation : Mat3) (translation : Vec3) (focal cx cy : ℝ)
    (hz : ∀ p ∈ points, ((rotation.mulVec p).add translation).z ≠ 0) :
    ∀ q ∈ perspective_projection_retain_z points rotation translation
        (build_intrinsics focal cx cy), q.z = 1 := by
  intro q hq
  simp only [perspective_projection_retain_z, List.mem_map] at hq
  obtain ⟨p, hp, rfl⟩ := hq
  have hzp := hz p hp
  simp only [Mat3.mulVec, Vec3.add] at hzp
  simp only [project_point, build_intrinsics, Mat3.mulVec, Vec3.add]
  rw [zero_mul, zero_mul, one_mul, zero_add, zero_add]
  exact div_self hzp

/-- Witness for the amended C3 at a concrete point with nonzero depth. -/
theorem perspective_projection_retain_z_last_channel_witness :
    (∀ p ∈ [Vec3.mk 0 0 0], ((Mat3.identity.mulVec p).add (Vec3.mk 0 0 2)).z ≠ 0) ∧
    ∀ q ∈ perspective_projection_retain_z [Vec3.mk 0 0 0] Mat3.identity (Vec3.mk 0 0 2)
        (build_intrinsics 1 0 0), q.z = 1 := by
  have hz : ∀ p ∈ [Vec3.mk 0 0 0], ((Mat3.identity.mulVec p).add (Vec3.mk 0 0 2)).z ≠ 0 := by
    intro p hp
    simp only [List.mem_singleton] at hp
    subst hp
    simp [Mat3.mulVec, Mat3.identity, Vec3.add]
  exact ⟨hz, perspective_projection_retain_z_last_channel _ _ _ 1 0 0 hz⟩

/-- `convert_to_full_img_cam` (geometry.py lines 473-490), one batch element:
weak-perspective `(s, tx, ty)` in bbox coordinates to a full-image camera
translation. -/
def convert_to_full_img_cam (s tx ty bbox_height bcx bcy img_w img_h focal_length : ℝ) :
    Vec3 :=
  let res : ℝ := 224
  let r := bbox_height / res
  let tz := 2 * focal_length / (r * res * s)
  let cx := 2 * (bcx - img_w / 2) / (s * bbox_height)
  let cy := 2 * (bcy - img_h / 2) / (s * bbox_height)
  ⟨tx + cx, ty + cy, tz⟩

/-- C7: for `s > 0` and `bbox_height > 0`, `convert_to_full_img_cam` returns
depth `2·f/(r·res·s) = 2·f/(s·h)` and x/y equal to `tx`/`ty` plus the bbox
center's displacement from the image center scaled by `2/(s·h)`. -/
theorem convert_to_full_img_cam_closed_form (s tx ty bh bcx bcy w himg f : ℝ)
    (hs : 0 < s) (hh : 0 < bh) :
    convert_to_full_img_cam s tx ty bh bcx bcy w himg f =
      ⟨tx + (bcx - w / 2) * (2 / (s * bh)),
       ty + (bcy - himg / 2) * (2 / (s * bh)),
       2 * f / (s * bh)⟩ := by
  have h224 : bh / 224 * 224 = bh := div_mul_cancel₀ bh (by norm_num)
  simp only [convert_to_full_img_cam]
  ext
  · ring
  · ring
  · rw [h224, mul_comm s bh]

/-- Witness for C7 at concrete camera parameters. -/
theorem convert_to_full_img_cam_closed_form_witness :
    (0 : ℝ) < 1 ∧ (0 : ℝ) < 224 ∧
    convert_to_full_img_cam 1 3 4 224 112 112 224 224 5000 =
      ⟨3 + (112 - 224 / 2) * (2 / (1 * 224)),
       4 + (112 - 224 / 2) * (2 / (1 * 224)),
       2 * 5000 / (1 * 224)⟩ :=
  ⟨by norm_num, by norm_num,
    convert_to_full_img_cam_closed_form 1 3 4 224 112 112 224 224 5000
      (by norm_num) (by norm_num)⟩

/-- `batch_rodrigues` (geometry.py lines 12-26), one batch element.  The
scalar `1e-8` of `theta + 1e-8` is broadcast-added to every component before
the 2-norm; the original `theta` is then divided by that norm. -/
def batch_rodrigues1 (theta : Vec3) : Mat3 :=
  let l1norm := Vec3.norm ⟨theta.x + 1e-8, theta.y + 1e-8, theta.z + 1e-8⟩
  let angle := l1norm
  let normalized := theta.divS angle
  let half := angle * 0.5
  let v_cos := Real.cos half
  let v_sin := Real.sin half
  quat_to_rotmat1 ⟨v_cos, v_sin * normalized.x, v_sin * normalized.y, v_sin * normalized.z⟩

/-- `batch_rodrigues` on a `(B,3)` batch. -/
def batch_rodrigues (thetas : List Vec3) : List Mat3 := thetas.map batch_rodrigues1

/-- A quaternion `(c,0,0,0)` with positive real part maps to the identity. -/
lemma quat_to_rotmat1_real_part (c : ℝ) (hc : 0 < c) :
    quat_to_rotmat1 ⟨c, 0, 0, 0⟩ = Mat3.identity := by
  have hn : Quat4.norm ⟨c, 0, 0, 0⟩ = c := by
    simp only [Quat4.norm]
    rw [show c ^ 2 + (0:ℝ) ^ 2 + 0 ^ 2 + 0 ^ 2 = c ^ 2 by ring, Real.sqrt_sq hc.le]
  simp only [quat_to_rotmat1, hn, Mat3.identity]
  have hc0 : c ≠ 0 := hc.ne'
  ext <;> simp [div_self hc0]

/-- C6: the zero axis-angle vector maps to the exact 3x3 identity matrix
under `batch_rodrigues`: the epsilon shifts the norm to a small positive
value, the normalized axis is the zero vector, and the resulting quaternion
`(cos(angle/2),0,0,0)` re-normalizes to `(1,0,0,0)`. -/
theorem batch_rodrigues_zero_eq_identity :
    batch_rodrigues [Vec3.mk 0 0 0] = [Mat3.identity] := by
  simp only [batch_rodrigues, List.map_cons, List.map_nil, List.cons.injEq, and_true]
  simp only [batch_rodrigues1, Vec3.divS, zero_div, mul_zero]
  apply quat_to_rotmat1_real_part
  set L := Vec3.norm ⟨(0:ℝ) + 1e-8, (0:ℝ) + 1e-8, (0:ℝ) + 1e-8⟩ with hLdef
  have hL0 : 0 ≤ L := Real.sqrt_nonneg _
  have hL1 : L < 1 := by
    have harg : Vec3.dot ⟨(0:ℝ) + 1e-8, (0:ℝ) + 1e-8, (0:ℝ) + 1e-8⟩
        ⟨(0:ℝ) + 1e-8, (0:ℝ) + 1e-8, (0:ℝ) + 1e-8⟩ < 1 := by
      simp only [Vec3.dot]
      norm_num
    have := Real.sqrt_lt_sqrt (le_of_lt (by simp only [Vec3.dot]; norm_num)) harg
    rwa [Real.sqrt_one] at this
  apply Real.cos_pos_of_mem_Ioo
  constructor
  · have := Real.pi_pos
    nlinarith
  · have := Real.pi_gt_three
    nlinarith

/-- Cofactor identities of a proper rotation matrix, at the scalar level:
the adjugate equals the transpose.  Entries row major
`a b c / d e f / g h i`; hypotheses are orthonormality of the columns and
determinant one. -/
lemma rot_cof_aux (a b c d e f g h i : ℝ)
    (hc00 : a * a + d * d + g * g = 1) (hc11 : b * b + e * e + h * h = 1)
    (hc22 : c * c + f * f + i * i = 1) (hc01 : a * b + d * e + g * h = 0)
    (hc02 : a * c + d * f + g * i = 0) (hc12 : b * c + e * f + h * i = 0)
    (hdet : a * e * i + b * f * g + c * d * h - c * e * g - a * f * h - b * d * i = 1) :
    a = e * i - f * h ∧ b = f * g - d * i ∧ c = d * h - e * g ∧
    d = c * h - b * i ∧ e = a * i - c * g ∧ f = b * g - a * h ∧
    g = b * f - c * e ∧ h = c * d - a * f ∧ i = a * e - b * d := by
  refine ⟨?_, ?_, ?_, ?_, ?_, ?_, ?_, ?_, ?_⟩
  · linear_combination (-1) * (a) * hdet + ((-1) * f * h + e * i) * hc00 +
      (f * g + (-1) * d * i) * hc01 + ((-1) * e * g + d * h) * hc02
  · linear_combination (-1) * (b) * hdet + ((-1) * f * h + e * i) * hc01 +
      (f * g + (-1) * d * i) * hc11 + ((-1) * e * g + d * h) * hc12
  · linear_combination (-1) * (c) * hdet + ((-1) * f * h + e * i) * hc02 +
      (f * g + (-1) * d * i) * hc12 + ((-1) * e * g + d * h) * hc22
  · linear_combination (-1) * (d) * hdet + (c * h + (-1) * b * i) * hc00 +
      ((-1) * c * g + a * i) * hc01 + (b * g + (-1) * a * h) * hc02
  · linear_combination (-1) * (e) * hdet + (c * h + (-1) * b * i) * hc01 +
      ((-1) * c * g + a * i) * hc11 + (b * g + (-1) * a * h) * hc12
  · linear_combination (-1) * (f) * hdet + (c * h + (-1) * b * i) * hc02 +
      ((-1) * c * g + a * i) * hc12 + (b * g + (-1) * a * h) * hc22
  · linear_combination (-1) * (g) * hdet + ((-1) * c * e + b * f) * hc00 +
      (c * d + (-1) * a * f) * hc01 + ((-1) * b * d + a * e) * hc02
  · linear_combination (-1) * (h) * hdet + ((-1) * c * e + b * f) * hc01 +
      (c * d + (-1) * a * f) * hc11 + ((-1) * b * d + a * e) * hc12
  · linear_combination (-1) * (i) * hdet + ((-1) * c * e + b * f) * hc02 +
      (c * d + (-1) * a * f) * hc12 + ((-1) * b * d + a * e) * hc22

/-- Row orthonormality of a proper rotation matrix, derived from column
orthonormality and determinant one. -/
lemma rot_row_aux (a b c d e f g h i : ℝ)
    (hc00 : a * a + d * d + g * g = 1) (hc11 : b * b + e * e + h * h = 1)
    (hc22 : c * c + f * f + i * i = 1) (hc01 : a * b + d * e + g * h = 0)
    (hc02 : a * c + d * f + g * i = 0) (hc12 : b * c + e * f + h * i = 0)
    (hdet : a * e * i + b * f * g + c * d * h - c * e * g - a * f * h - b * d * i = 1) :
    a * a + b * b + c * c = 1 ∧ d * d + e * e + f * f = 1 ∧ g * g + h * h + i * i = 1 ∧
    a * d + b * e + c * f = 0 ∧ a * g + b * h + c * i = 0 ∧ d * g + e * h + f * i = 0 := by
  obtain ⟨hk00, hk10, hk20, hk01, hk11, hk21, hk02, hk12, hk22⟩ :=
    rot_cof_aux a b c d e f g h i hc00 hc11 hc22 hc01 hc02 hc12 hdet
  refine ⟨?_, ?_, ?_, ?_, ?_, ?_⟩
  · linear_combination hdet + (a) * hk00 + (b) * hk10 + (c) * hk20
  · linear_combination hdet + (d) * hk01 + (e) * hk11 + (f) * hk21
  · linear_combination hdet + (g) * hk02 + (h) * hk12 + (i) * hk22
  · linear_combination (a) * hk01 + (b) * hk11 + (c) * hk21
  · linear_combination (a) * hk02 + (b) * hk12 + (c) * hk22
  · linear_combination (d) * hk02 + (e) * hk12 + (f) * hk22

/-- Certificate identities for branch 0 of the quaternion extraction. -/
lemma quat_branch0_cert (a b c d e f g h i : ℝ)
    (hc00 : a * a + d * d + g * g = 1) (hc11 : b * b + e * e + h * h = 1)
    (hc22 : c * c + f * f + i * i = 1) (hc01 : a * b + d * e + g * h = 0)
    (hc02 : a * c + d * f + g * i = 0) (hc12 : b * c + e * f + h * i = 0)
    (hdet : a * e * i + b * f * g + c * d * h - c * e * g - a * f * h - b * d * i = 1) :
    (h - f) ^ 2 + (1 + a - e - i) ^ 2 + (d + b) ^ 2 + (c + g) ^ 2 = 4 * (1 + a - e - i) ∧
    (h - f) ^ 2 + (1 + a - e - i) ^ 2 - (d + b) ^ 2 - (c + g) ^ 2 = 4 * (1 + a - e - i) * a ∧
    2 * (1 + a - e - i) * (d + b) - 2 * (h - f) * (c + g) = 4 * (1 + a - e - i) * b ∧
    2 * (h - f) * (d + b) + 2 * (1 + a - e - i) * (c + g) = 4 * (1 + a - e - i) * c ∧
    2 * (h - f) * (c + g) + 2 * (1 + a - e - i) * (d + b) = 4 * (1 + a - e - i) * d ∧
    (h - f) ^ 2 - (1 + a - e - i) ^ 2 + (d + b) ^ 2 - (c + g) ^ 2 = 4 * (1 + a - e - i) * e ∧
    2 * (d + b) * (c + g) - 2 * (h - f) * (1 + a - e - i) = 4 * (1 + a - e - i) * f ∧
    2 * (1 + a - e - i) * (c + g) - 2 * (h - f) * (d + b) = 4 * (1 + a - e - i) * g ∧
    2 * (h - f) * (1 + a - e - i) + 2 * (d + b) * (c + g) = 4 * (1 + a - e - i) * h ∧
    (h - f) ^ 2 - (1 + a - e - i) ^ 2 - (d + b) ^ 2 + (c + g) ^ 2 = 4 * (1 + a - e - i) * i := by
  obtain ⟨hk00, hk10, hk20, hk01, hk11, hk21, hk02, hk12, hk22⟩ :=
    rot_cof_aux a b c d e f g h i hc00 hc11 hc22 hc01 hc02 hc12 hdet
  obtain ⟨hr00, hr11, hr22, hr01, hr02, hr12⟩ :=
    rot_row_aux a b c d e f g h i hc00 hc11 hc22 hc01 hc02 hc12 hdet
  refine ⟨?_, ?_, ?_, ?_, ?_, ?_, ?_, ?_, ?_, ?_⟩
  · linear_combination hc00 + hc11 + hc22 + (-2 : ℝ) * hk00 + (2 : ℝ) * hk11 + (2 : ℝ) * hk22
  · linear_combination (-1 : ℝ) * hc00 + hc11 + hc22 + (-2 : ℝ) * hr00 + (-2 : ℝ) * hk00 + (-2 : ℝ) * hk11 + (-2 : ℝ) * hk22
  · linear_combination (-2 : ℝ) * hc01 + (2 : ℝ) * hr01 + (2 : ℝ) * hk01 + (-2 : ℝ) * hk10
  · linear_combination (-2 : ℝ) * hc02 + (2 : ℝ) * hr02 + (2 : ℝ) * hk02 + (-2 : ℝ) * hk20
  · linear_combination (2 : ℝ) * hc01 + (-2 : ℝ) * hr01 + (-2 : ℝ) * hk01 + (2 : ℝ) * hk10
  · linear_combination (-1 : ℝ) * hc00 + hc11 + (-1 : ℝ) * hc22 + (2 : ℝ) * hr11 + (-2 : ℝ) * hk00 + (-2 : ℝ) * hk11 + (2 : ℝ) * hk22
  · linear_combination (2 : ℝ) * hc12 + (2 : ℝ) * hr12 + (-2 : ℝ) * hk12 + (-2 : ℝ) * hk21
  · linear_combination (2 : ℝ) * hc02 + (-2 : ℝ) * hr02 + (-2 : ℝ) * hk02 + (2 : ℝ) * hk20
  · linear_combination (2 : ℝ) * hc12 + (2 : ℝ) * hr12 + (-2 : ℝ) * hk12 + (-2 : ℝ) * hk21
  · linear_combination hc00 + hc11 + (3 : ℝ) * hc22 + (-2 : ℝ) * hr00 + (-2 : ℝ) * hr11 + (-2 : ℝ) * hk00 + (2 : ℝ) * hk11 + (-2 : ℝ) * hk22

/-- Certificate identities for branch 1 of the quaternion extraction. -/
lemma quat_branch1_cert (a b c d e f g h i : ℝ)
    (hc00 : a * a + d * d + g * g = 1) (hc11 : b * b + e * e + h * h = 1)
    (hc22 : c * c + f * f + i * i = 1) (hc01 : a * b + d * e + g * h = 0)
    (hc02 : a * c + d * f + g * i = 0) (hc12 : b * c + e * f + h * i = 0)
    (hdet : a * e * i + b * f * g + c * d * h - c * e * g - a * f * h - b * d * i = 1) :
    (c - g) ^ 2 + (d + b) ^ 2 + (1 - a + e - i) ^ 2 + (h + f) ^ 2 = 4 * (1 - a + e - i) ∧
    (c - g) ^ 2 + (d + b) ^ 2 - (1 - a + e - i) ^ 2 - (h + f) ^ 2 = 4 * (1 - a + e - i) * a ∧
    2 * (d + b) * (1 - a + e - i) - 2 * (c - g) * (h + f) = 4 * (1 - a + e - i) * b ∧
    2 * (c - g) * (1 - a + e - i) + 2 * (d + b) * (h + f) = 4 * (1 - a + e - i) * c ∧
    2 * (c - g) * (h + f) + 2 * (d + b) * (1 - a + e - i) = 4 * (1 - a + e - i) * d ∧
    (c - g) ^ 2 - (d + b) ^ 2 + (1 - a + e - i) ^ 2 - (h + f) ^ 2 = 4 * (1 - a + e - i) * e ∧
    2 * (1 - a + e - i) * (h + f) - 2 * (c - g) * (d + b) = 4 * (1 - a + e - i) * f ∧
    2 * (d + b) * (h + f) - 2 * (c - g) * (1 - a + e - i) = 4 * (1 - a + e - i) * g ∧
    2 * (c - g) * (d + b) + 2 * (1 - a + e - i) * (h + f) = 4 * (1 - a + e - i) * h ∧
    (c - g) ^ 2 - (d + b) ^ 2 - (1 - a + e - i) ^ 2 + (h + f) ^ 2 = 4 * (1 - a + e - i) * i := by
  obtain ⟨hk00, hk10, hk20, hk01, hk11, hk21, hk02, hk12, hk22⟩ :=
    rot_cof_aux a b c d e f g h i hc00 hc11 hc22 hc01 hc02 hc12 hdet
  obtain ⟨hr00, hr11, hr22, hr01, hr02, hr12⟩ :=
    rot_row_aux a b c d e f g h i hc00 hc11 hc22 hc01 hc02 hc12 hdet
  refine ⟨?_, ?_, ?_, ?_, ?_, ?_, ?_, ?_, ?_, ?_⟩
  · linear_combination hc00 + hc11 + hc22 + (2 : ℝ) * hk00 + (-2 : ℝ) * hk11 + (2 : ℝ) * hk22
  · linear_combination hc00 + (-1 : ℝ) * hc11 + (-1 : ℝ) * hc22 + (2 : ℝ) * hr00 + (-2 : ℝ) * hk00 + (-2 : ℝ) * hk11 + (2 : ℝ) * hk22
  · linear_combination (2 : ℝ) * hc01 + (-2 : ℝ) * hr01 + (2 : ℝ) * hk01 + (-2 : ℝ) * hk10
  · linear_combination (2 : ℝ) * hc02 + (2 : ℝ) * hr02 + (-2 : ℝ) * hk02 + (-2 : ℝ) * hk20
  · linear_combination (-2 : ℝ) * hc01 + (2 : ℝ) * hr01 + (-2 : ℝ) * hk01 + (2 : ℝ) * hk10
  · linear_combination hc00 + (-1 : ℝ) * hc11 + hc22 + (-2 : ℝ) * hr11 + (-2 : ℝ) * hk00 + (-2 : ℝ) * hk11 + (-2 : ℝ) * hk22
  · linear_combination (-2 : ℝ) * hc12 + (2 : ℝ) * hr12 + (2 : ℝ) * hk12 + (-2 : ℝ) * hk21
  · linear_combination (2 : ℝ) * hc02 + (2 : ℝ) * hr02 + (-2 : ℝ) * hk02 + (-2 : ℝ) * hk20
  · linear_combination (2 : ℝ) * hc12 + (-2 : ℝ) * hr12 + (-2 : ℝ) * hk12 + (2 : ℝ) * hk21
  · linear_combination hc00 + hc11 + (3 : ℝ) * hc22 + (-2 : ℝ) * hr00 + (-2 : ℝ) * hr11 + (2 : ℝ) * hk00 + (-2 : ℝ) * hk11 + (-2 : ℝ) * hk22

/-- Certificate identities for branch 2 of the quaternion extraction. -/
lemma quat_branch2_cert (a b c d e f g h i : ℝ)
    (hc00 : a * a + d * d + g * g = 1) (hc11 : b * b + e * e + h * h = 1)
    (hc22 : c * c + f * f + i * i = 1) (hc01 : a * b + d * e + g * h = 0)
    (hc02 : a * c + d * f + g * i = 0) (hc12 : b * c + e * f + h * i = 0)
    (hdet : a * e * i + b * f * g + c * d * h - c * e * g - a * f * h - b * d * i = 1) :
    (d - b) ^ 2 + (c + g) ^ 2 + (h + f) ^ 2 + (1 - a - e + i) ^ 2 = 4 * (1 - a - e + i) ∧
    (d - b) ^ 2 + (c + g) ^ 2 - (h + f) ^ 2 - (1 - a - e + i) ^ 2 = 4 * (1 - a - e + i) * a ∧
    2 * (c + g) * (h + f) - 2 * (d - b) * (1 - a - e + i) = 4 * (1 - a - e + i) * b ∧
    2 * (d - b) * (h + f) + 2 * (c + g) * (1 - a - e + i) = 4 * (1 - a - e + i) * c ∧
    2 * (d - b) * (1 - a - e + i) + 2 * (c + g) * (h + f) = 4 * (1 - a - e + i) * d ∧
    (d - b) ^ 2 - (c + g) ^ 2 + (h + f) ^ 2 - (1 - a - e + i) ^ 2 = 4 * (1 - a - e + i) * e ∧
    2 * (h + f) * (1 - a - e + i) - 2 * (d - b) * (c + g) = 4 * (1 - a - e + i) * f ∧
    2 * (c + g) * (1 - a - e + i) - 2 * (d - b) * (h + f) = 4 * (1 - a - e + i) * g ∧
    2 * (d - b) * (c + g) + 2 * (h + f) * (1 - a - e + i) = 4 * (1 - a - e + i) * h ∧
    (d - b) ^ 2 - (c + g) ^ 2 - (h + f) ^ 2 + (1 - a - e + i) ^ 2 = 4 * (1 - a - e + i) * i := by
  obtain ⟨hk00, hk10, hk20, hk01, hk11, hk21, hk02, hk12, hk22⟩ :=
    rot_cof_aux a b c d e f g h i hc00 hc11 hc22 hc01 hc02 hc12 hdet
  obtain ⟨hr00, hr11, hr22, hr01, hr02, hr12⟩ :=
    rot_row_aux a b c d e f g h i hc00 hc11 hc22 hc01 hc02 hc12 hdet
  refine ⟨?_, ?_, ?_, ?_, ?_, ?_, ?_, ?_, ?_, ?_⟩
  · linear_combination hc00 + hc11 + hc22 + (2 : ℝ) * hk00 + (2 : ℝ) * hk11 + (-2 : ℝ) * hk22
  · linear_combination hc00 + (-1 : ℝ) * hc11 + (-1 : ℝ) * hc22 + (2 : ℝ) * hr00 + (-2 : ℝ) * hk00 + (2 : ℝ) * hk11 + (-2 : ℝ) * hk22
  · linear_combination (2 : ℝ) * hc01 + (2 : ℝ) * hr01 + (-2 : ℝ) * hk01 + (-2 : ℝ) * hk10
  · linear_combination (2 : ℝ) * hc02 + (-2 : ℝ) * hr02 + (2 : ℝ) * hk02 + (-2 : ℝ) * hk20
  · linear_combination (2 : ℝ) * hc01 + (2 : ℝ) * hr01 + (-2 : ℝ) * hk01 + (-2 : ℝ) * hk10
  · linear_combination (-1 : ℝ) * hc00 + hc11 + (-1 : ℝ) * hc22 + (2 : ℝ) * hr11 + (2 : ℝ) * hk00 + (-2 : ℝ) * hk11 + (-2 : ℝ) * hk22
  · linear_combination (2 : ℝ) * hc12 + (-2 : ℝ) * hr12 + (2 : ℝ) * hk12 + (-2 : ℝ) * hk21
  · linear_combination (-2 : ℝ) * hc02 + (2 : ℝ) * hr02 + (-2 : ℝ) * hk02 + (2 : ℝ) * hk20
  · linear_combination (-2 : ℝ) * hc12 + (2 : ℝ) * hr12 + (-2 : ℝ) * hk12 + (2 : ℝ) * hk21
  · linear_combination (-1 : ℝ) * hc00 + (-1 : ℝ) * hc11 + (-3 : ℝ) * hc22 + (2 : ℝ) * hr00 + (2 : ℝ) * hr11 + (-2 : ℝ) * hk00 + (-2 : ℝ) * hk11 + (-2 : ℝ) * hk22

/-- Certificate identities for branch 3 of the quaternion extraction. -/
lemma quat_branch3_cert (a b c d e f g h i : ℝ)
    (hc00 : a * a + d * d + g * g = 1) (hc11 : b * b + e * e + h * h = 1)
    (hc22 : c * c + f * f + i * i = 1) (hc01 : a * b + d * e + g * h = 0)
    (hc02 : a * c + d * f + g * i = 0) (hc12 : b * c + e * f + h * i = 0)
    (hdet : a * e * i + b * f * g + c * d * h - c * e * g - a * f * h - b * d * i = 1) :
    (1 + a + e + i) ^ 2 + (h - f) ^ 2 + (c - g) ^ 2 + (d - b) ^ 2 = 4 * (1 + a + e + i) ∧
    (1 + a + e + i) ^ 2 + (h - f) ^ 2 - (c - g) ^ 2 - (d - b) ^ 2 = 4 * (1 + a + e + i) * a ∧
    2 * (h - f) * (c - g) - 2 * (1 + a + e + i) * (d - b) = 4 * (1 + a + e + i) * b ∧
    2 * (1 + a + e + i) * (c - g) + 2 * (h - f) * (d - b) = 4 * (1 + a + e + i) * c ∧
    2 * (1 + a + e + i) * (d - b) + 2 * (h - f) * (c - g) = 4 * (1 + a + e + i) * d ∧
    (1 + a + e + i) ^ 2 - (h - f) ^ 2 + (c - g) ^ 2 - (d - b) ^ 2 = 4 * (1 + a + e + i) * e ∧
    2 * (c - g) * (d - b) - 2 * (1 + a + e + i) * (h - f) = 4 * (1 + a + e + i) * f ∧
    2 * (h - f) * (d - b) - 2 * (1 + a + e + i) * (c - g) = 4 * (1 + a + e + i) * g ∧
    2 * (1 + a + e + i) * (h - f) + 2 * (c - g) * (d - b) = 4 * (1 + a + e + i) * h ∧
    (1 + a + e + i) ^ 2 - (h - f) ^ 2 - (c - g) ^ 2 + (d - b) ^ 2 = 4 * (1 + a + e + i) * i := by
  obtain ⟨hk00, hk10, hk20, hk01, hk11, hk21, hk02, hk12, hk22⟩ :=
    rot_cof_aux a b c d e f g h i hc00 hc11 hc22 hc01 hc02 hc12 hdet
  obtain ⟨hr00, hr11, hr22, hr01, hr02, hr12⟩ :=
    rot_row_aux a b c d e f g h i hc00 hc11 hc22 hc01 hc02 hc12 hdet
  refine ⟨?_, ?_, ?_, ?_, ?_, ?_, ?_, ?_, ?_, ?_⟩
  · linear_combination hc00 + hc11 + hc22 + (-2 : ℝ) * hk00 + (-2 : ℝ) * hk11 + (-2 : ℝ) * hk22
  · linear_combination (-1 : ℝ) * hc00 + hc11 + hc22 + (-2 : ℝ) * hr00 + (-2 : ℝ) * hk00 + (2 : ℝ) * hk11 + (2 : ℝ) * hk22
  · linear_combination (-2 : ℝ) * hc01 + (-2 : ℝ) * hr01 + (-2 : ℝ) * hk01 + (-2 : ℝ) * hk10
  · linear_combination (-2 : ℝ) * hc02 + (-2 : ℝ) * hr02 + (-2 : ℝ) * hk02 + (-2 : ℝ) * hk20
  · linear_combination (-2 : ℝ) * hc01 + (-2 : ℝ) * hr01 + (-2 : ℝ) * hk01 + (-2 : ℝ) * hk10
  · linear_combination hc00 + (-1 : ℝ) * hc11 + hc22 + (-2 : ℝ) * hr11 + (2 : ℝ) * hk00 + (-2 : ℝ) * hk11 + (2 : ℝ) * hk22
  · linear_combination (-2 : ℝ) * hc12 + (-2 : ℝ) * hr12 + (-2 : ℝ) * hk12 + (-2 : ℝ) * hk21
  · linear_combination (-2 : ℝ) * hc02 + (-2 : ℝ) * hr02 + (-2 : ℝ) * hk02 + (-2 : ℝ) * hk20
  · linear_combination (-2 : ℝ) * hc12 + (-2 : ℝ) * hr12 + (-2 : ℝ) * hk12 + (-2 : ℝ) * hk21
  · linear_combination (-1 : ℝ) * hc00 + (-1 : ℝ) * hc11 + (-3 : ℝ) * hc22 + (2 : ℝ) * hr00 + (2 : ℝ) * hr11 + (2 : ℝ) * hk00 + (2 : ℝ) * hk11 + (-2 : ℝ) * hk22

/-- If an unnormalized quaternion `(w,x,y,z)` satisfies the bilinear entry
identities against `R` at scale `4t` with `t > 0`, then `quat_to_rotmat` of
that quaternion divided by `√t` and halved is exactly `R`. -/
lemma quat_to_rotmat1_of_cert (w x y z t : ℝ) (R : Mat3) (ht : 0 < t)
    (hnorm : w ^ 2 + x ^ 2 + y ^ 2 + z ^ 2 = 4 * t)
    (h00 : w ^ 2 + x ^ 2 - y ^ 2 - z ^ 2 = 4 * t * R.m00)
    (h01 : 2 * x * y - 2 * w * z = 4 * t * R.m01)
    (h02 : 2 * w * y + 2 * x * z = 4 * t * R.m02)
    (h10 : 2 * w * z + 2 * x * y = 4 * t * R.m10)
    (h11 : w ^ 2 - x ^ 2 + y ^ 2 - z ^ 2 = 4 * t * R.m11)
    (h12 : 2 * y * z - 2 * w * x = 4 * t * R.m12)
    (h20 : 2 * x * z - 2 * w * y = 4 * t * R.m20)
    (h21 : 2 * w * x + 2 * y * z = 4 * t * R.m21)
    (h22 : w ^ 2 - x ^ 2 - y ^ 2 + z ^ 2 = 4 * t * R.m22) :
    quat_to_rotmat1 ((Quat4.divS ⟨w, x, y, z⟩ (Real.sqrt t)).smul 0.5) = R := by
  have hs : 0 < Real.sqrt t := Real.sqrt_pos.2 ht
  set s := Real.sqrt t with hsdef
  have hs2 : s ^ 2 = t := Real.sq_sqrt ht.le
  have hsne : s ≠ 0 := hs.ne'
  rw [← hs2] at hnorm h00 h01 h02 h10 h11 h12 h20 h21 h22
  have hnq : Quat4.norm ((Quat4.divS ⟨w, x, y, z⟩ s).smul 0.5) = 1 := by
    simp only [Quat4.norm, Quat4.divS, Quat4.smul]
    rw [show (0.5 * (w / s)) ^ 2 + (0.5 * (x / s)) ^ 2 + (0.5 * (y / s)) ^ 2
          + (0.5 * (z / s)) ^ 2 = (w ^ 2 + x ^ 2 + y ^ 2 + z ^ 2) / (4 * s ^ 2) from by
        field_simp
        ring]
    rw [hnorm, div_self (by positivity)]
    exact Real.sqrt_one
  simp only [quat_to_rotmat1]
  rw [hnq]
  simp only [Quat4.divS, Quat4.smul, div_one]
  ext
  · field_simp
    linear_combination h00 / 4
  · field_simp
    linear_combination h01 / 4
  · field_simp
    linear_combination h02 / 4
  · field_simp
    linear_combination h10 / 4
  · field_simp
    linear_combination h11 / 4
  · field_simp
    linear_combination h12 / 4
  · field_simp
    linear_combination h20 / 4
  · field_simp
    linear_combination h21 / 4
  · field_simp
    linear_combination h22 / 4

/-- One element of C1 (quaternion half): `matrix → quaternion → matrix` is the
identity on valid rotation matrices. -/
lemma rmq_quat_roundtrip1 (R : Mat3) (hR : IsRotation R) :
    quat_to_rotmat1 (rotation_matrix_to_quaternion1 R) = R := by
  obtain ⟨a, b, c, d, e, f, g, h, i⟩ := R
  obtain ⟨hc00, hc11, hc22, hc01, hc02, hc12, hdet⟩ := hR
  simp only [Mat3.col0, Mat3.col1, Mat3.col2, Vec3.dot, Mat3.det]
    at hc00 hc11 hc22 hc01 hc02 hc12 hdet
  by_cases h2 : i < 1e-6
  · by_cases hd01 : a > e
    · -- branch 0
      have ht : 0 < 1 + a - e - i := by linarith
      have hq : rotation_matrix_to_quaternion1 ⟨a, b, c, d, e, f, g, h, i⟩ =
          (Quat4.divS ⟨h - f, 1 + a - e - i, d + b, c + g⟩
            (Real.sqrt (1 + a - e - i))).smul 0.5 := by
        simp only [rotation_matrix_to_quaternion1]
        rw [if_pos h2, if_pos hd01]
        simp only [Quat4.add, Quat4.smul, Quat4.divS]
        ext <;> norm_num
      rw [hq]
      obtain ⟨c1, c2, c3, c4, c5, c6, c7, c8, c9, c10⟩ :=
        quat_branch0_cert a b c d e f g h i hc00 hc11 hc22 hc01 hc02 hc12 hdet
      exact quat_to_rotmat1_of_cert _ _ _ _ _ _ ht c1 c2 c3 c4 c5 c6 c7 c8 c9 c10
    · -- branch 1
      have ht : 0 < 1 - a + e - i := by
        have hae : e ≥ a := le_of_not_lt hd01
        linarith
      have hq : rotation_matrix_to_quaternion1 ⟨a, b, c, d, e, f, g, h, i⟩ =
          (Quat4.divS ⟨c - g, d + b, 1 - a + e - i, h + f⟩
            (Real.sqrt (1 - a + e - i))).smul 0.5 := by
        simp only [rotation_matrix_to_quaternion1]
        rw [if_pos h2, if_neg hd01]
        simp only [Quat4.add, Quat4.smul, Quat4.divS]
        ext <;> norm_num
      rw [hq]
      obtain ⟨c1, c2, c3, c4, c5, c6, c7, c8, c9, c10⟩ :=
        quat_branch1_cert a b c d e f g h i hc00 hc11 hc22 hc01 hc02 hc12 hdet
      exact quat_to_rotmat1_of_cert _ _ _ _ _ _ ht c1 c2 c3 c4 c5 c6 c7 c8 c9 c10
  · by_cases hnd : a < -e
    · -- branch 2
      have ht : 0 < 1 - a - e + i := by
        have : ¬ i < 1e-6 := h2
        have hi : i ≥ 1e-6 := le_of_not_lt this
        linarith
      have hq : rotation_matrix_to_quaternion1 ⟨a, b, c, d, e, f, g, h, i⟩ =
          (Quat4.divS ⟨d - b, c + g, h + f, 1 - a - e + i⟩
            (Real.sqrt (1 - a - e + i))).smul 0.5 := by
        simp only [rotation_matrix_to_quaternion1]
        rw [if_neg h2, if_pos hnd]
        simp only [Quat4.add, Quat4.smul, Quat4.divS]
        ext <;> norm_num
      rw [hq]
      obtain ⟨c1, c2, c3, c4, c5, c6, c7, c8, c9, c10⟩ :=
        quat_branch2_cert a b c d e f g h i hc00 hc11 hc22 hc01 hc02 hc12 hdet
      exact quat_to_rotmat1_of_cert _ _ _ _ _ _ ht c1 c2 c3 c4 c5 c6 c7 c8 c9 c10
    · -- branch 3
      have ht : 0 < 1 + a + e + i := by
        have hi : i ≥ 1e-6 := le_of_not_lt h2
        have hae : a + e ≥ 0 := by
          have := le_of_not_lt hnd
          linarith
        linarith
      have hq : rotation_matrix_to_quaternion1 ⟨a, b, c, d, e, f, g, h, i⟩ =
          (Quat4.divS ⟨1 + a + e + i, h - f, c - g, d - b⟩
            (Real.sqrt (1 + a + e + i))).smul 0.5 := by
        simp only [rotation_matrix_to_quaternion1]
        rw [if_neg h2, if_neg hnd]
        simp only [Quat4.add, Quat4.smul, Quat4.divS]
        ext <;> norm_num
      rw [hq]
      obtain ⟨c1, c2, c3, c4, c5, c6, c7, c8, c9, c10⟩ :=
        quat_branch3_cert a b c d e f g h i hc00 hc11 hc22 hc01 hc02 hc12 hdet
      exact quat_to_rotmat1_of_cert _ _ _ _ _ _ ht c1 c2 c3 c4 c5 c6 c7 c8 c9 c10

/-- C1 amended (quaternion half): on every batch of valid rotation matrices,
`matrix → quaternion → matrix` reproduces the batch exactly. -/
theorem matrix_quat_matrix_roundtrip (Rs : List Mat3) (hR : ∀ R ∈ Rs, IsRotation R) :
    quat_to_rotmat (rotation_matrix_to_quaternion Rs) = Rs := by
  revert hR
  induction Rs with
  | nil => intro _; rfl
  | cons R rest ih =>
    intro hR
    simp only [rotation_matrix_to_quaternion, quat_to_rotmat, List.map_cons] at ih ⊢
    rw [rmq_quat_roundtrip1 R (hR R (List.mem_cons_self R rest)),
      ih (fun X hX => hR X (List.mem_cons_of_mem _ hX))]

/-- Witness for the amended C1 at the identity rotation. -/
theorem matrix_quat_matrix_roundtrip_witness :
    (∀ R ∈ [Mat3.identity], IsRotation R) ∧
    quat_to_rotmat (rotation_matrix_to_quaternion [Mat3.identity]) = [Mat3.identity] := by
  have hrot : ∀ R ∈ [Mat3.identity], IsRotation R := by
    intro R hRm
    simp only [List.mem_singleton] at hRm
    subst hRm
    refine ⟨?_, ?_, ?_, ?_, ?_, ?_, ?_⟩ <;>
      norm_num [Mat3.identity, Mat3.col0, Mat3.col1, Mat3.col2, Vec3.dot, Mat3.det]
  exact ⟨hrot, matrix_quat_matrix_roundtrip _ hrot⟩

/-- The rotation by π about the x axis, `diag(1,-1,-1)`. -/
def RotXPi : Mat3 := ⟨1, 0, 0, 0, -1, 0, 0, 0, -1⟩

lemma rmq_RotXPi : rotation_matrix_to_quaternion1 RotXPi = ⟨0, 1, 0, 0⟩ := by
  have hs4 : Real.sqrt 4 = 2 := by
    rw [show (4 : ℝ) = 2 ^ 2 by norm_num, Real.sqrt_sq (by norm_num : (0 : ℝ) ≤ 2)]
  simp only [rotation_matrix_to_quaternion1, RotXPi, Quat4.add, Quat4.smul, Quat4.divS]
  ext <;> norm_num [hs4]

lemma aa_RotXPi : rotation_matrix_to_angle_axis1 RotXPi = ⟨Real.pi, 0, 0⟩ := by
  show quaternion_to_angle_axis1 (rotation_matrix_to_quaternion1 RotXPi) = _
  rw [rmq_RotXPi]
  have hat : atan2 1 0 = Real.pi / 2 := by
    unfold atan2
    norm_num
  simp only [quaternion_to_angle_axis1]
  ext <;> norm_num [Real.sqrt_one, hat] <;> ring

lemma rodrigues_pi_ne : batch_rodrigues1 ⟨Real.pi, 0, 0⟩ ≠ RotXPi := by
  intro hEq
  set L := Vec3.norm ⟨Real.pi + 1e-8, 0 + 1e-8, 0 + 1e-8⟩ with hL
  have hπ3 := Real.pi_gt_three
  have hLlo : Real.pi < L := by
    rw [hL, Vec3.norm, Vec3.dot]
    apply (Real.lt_sqrt Real.pi_pos.le).2
    nlinarith
  have hLhi : L < 3 * Real.pi := by
    rw [hL, Vec3.norm, Vec3.dot]
    apply (Real.sqrt_lt' (by positivity)).2
    nlinarith
  have hcos : Real.cos (L * 0.5) < 0 := by
    apply Real.cos_neg_of_pi_div_two_lt_of_lt
    · linarith
    · linarith
  have heval : batch_rodrigues1 ⟨Real.pi, 0, 0⟩ =
      quat_to_rotmat1 ⟨Real.cos (L * 0.5), Real.sin (L * 0.5) * (Real.pi / L), 0, 0⟩ := by
    simp only [batch_rodrigues1, Vec3.divS, ← hL]
    norm_num
  rw [heval] at hEq
  set W := Real.cos (L * 0.5) with hWdef
  set X := Real.sin (L * 0.5) * (Real.pi / L) with hXdef
  have hWne : W ≠ 0 := ne_of_lt hcos
  have hW2 : 0 < W ^ 2 := pow_two_pos_of_ne_zero hWne
  have hnpos : 0 < Quat4.norm ⟨W, X, 0, 0⟩ := by
    rw [Quat4.norm]
    apply Real.sqrt_pos.2
    nlinarith [sq_nonneg X]
  have hn2 : Quat4.norm ⟨W, X, 0, 0⟩ ^ 2 = W ^ 2 + X ^ 2 := by
    rw [Quat4.norm, Real.sq_sqrt (by nlinarith [sq_nonneg X])]
    ring
  have h11 := congrArg Mat3.m11 hEq
  simp only [quat_to_rotmat1, RotXPi] at h11
  set n := Quat4.norm ⟨W, X, 0, 0⟩ with hndef
  have hnne : n ≠ 0 := hnpos.ne'
  field_simp at h11
  nlinarith [hn2, hW2, sq_nonneg X, hnpos]

/-- C1 counterexample: `matrix → axis-angle → matrix` is not exact under
exact real arithmetic.  At the rotation by π about the x axis the scalar
1e-8 added to every component of the axis-angle vector before the norm in
`batch_rodrigues` perturbs the reconstructed rotation. -/
theorem matrix_angle_axis_roundtrip_not_exact :
    batch_rodrigues (rotation_matrix_to_angle_axis [RotXPi]) ≠ [RotXPi] := by
  simp only [rotation_matrix_to_angle_axis, batch_rodrigues, List.map_cons, List.map_nil,
    aa_RotXPi]
  intro hEq
  injection hEq with h1 h2
  exact rodrigues_pi_ne h1

/-- 6D rotation representation (one row of a `(B,6)` tensor). -/
structure Rot6 where
  r0 : ℝ
  r1 : ℝ
  r2 : ℝ
  r3 : ℝ
  r4 : ℝ
  r5 : ℝ

attribute [ext] Rot6

/-- `F.normalize` along the last dimension with the torch default
`eps = 1e-12`: divide by `max(‖v‖, eps)`. -/
def fnormalize (v : Vec3) : Vec3 := v.divS (max v.norm 1e-12)

/-- `rot6d_to_rotmat` (geometry.py lines 314-348), one batch element: reshape
the 6-vector to 3x2 (`rearrange 'b (k l)' k=3 l=2`), Gram-Schmidt the two
columns, complete with the cross product, stack as matrix columns. -/
def rot6d_to_rotmat1 (v : Rot6) : Mat3 :=
  let a1 : Vec3 := ⟨v.r0, v.r2, v.r4⟩
  let a2 : Vec3 := ⟨v.r1, v.r3, v.r5⟩
  let b1 := fnormalize a1
  let b2 := fnormalize (a2.sub (Vec3.smul (b1.dot a2) b1))
  let b3 := b1.cross b2
  ⟨b1.x, b2.x, b3.x, b1.y, b2.y, b3.y, b1.z, b2.z, b3.z⟩

/-- `rot6d_to_rotmat` on a `(B,6)` batch. -/
def rot6d_to_rotmat (vs : List Rot6) : List Mat3 := vs.map rot6d_to_rotmat1

/-- `rotmat_to_rot6d` (lines 351-362): the first two columns of the matrix,
flattened row major. -/
def rotmat_to_rot6d1 (M : Mat3) : Rot6 := ⟨M.m00, M.m01, M.m10, M.m11, M.m20, M.m21⟩

/-- `rotmat_to_rot6d` on a batch. -/
def rotmat_to_rot6d (Ms : List Mat3) : List Rot6 := Ms.map rotmat_to_rot6d1

/-- One element of C5: the 6D round trip is the identity on orthonormal
proper rotations. -/
lemma rot6d_roundtrip1 (R : Mat3) (hR : IsRotation R) :
    rot6d_to_rotmat1 (rotmat_to_rot6d1 R) = R := by
  obtain ⟨a, b, c, d, e, f, g, h, i⟩ := R
  obtain ⟨hc00, hc11, hc22, hc01, hc02, hc12, hdet⟩ := hR
  simp only [Mat3.col0, Mat3.col1, Mat3.col2, Vec3.dot, Mat3.det]
    at hc00 hc11 hc22 hc01 hc02 hc12 hdet
  obtain ⟨hk00, hk10, hk20, hk01, hk11, hk21, hk02, hk12, hk22⟩ :=
    rot_cof_aux a b c d e f g h i hc00 hc11 hc22 hc01 hc02 hc12 hdet
  have hb1 : fnormalize ⟨a, d, g⟩ = ⟨a, d, g⟩ := by
    have hn1 : Vec3.norm ⟨a, d, g⟩ = 1 := by
      rw [Vec3.norm, Vec3.dot]
      rw [show a * a + d * d + g * g = 1 from hc00]
      exact Real.sqrt_one
    rw [fnormalize, hn1, max_eq_left (by norm_num : (1e-12 : ℝ) ≤ 1)]
    ext <;> simp [Vec3.divS]
  have hd0 : Vec3.dot ⟨a, d, g⟩ ⟨b, e, h⟩ = 0 := by
    rw [Vec3.dot]
    exact hc01
  have hsub : Vec3.sub ⟨b, e, h⟩ (Vec3.smul (Vec3.dot ⟨a, d, g⟩ ⟨b, e, h⟩) ⟨a, d, g⟩) =
      ⟨b, e, h⟩ := by
    rw [hd0]
    ext <;> simp [Vec3.smul, Vec3.sub]
  have hb2 : fnormalize ⟨b, e, h⟩ = ⟨b, e, h⟩ := by
    have hn2 : Vec3.norm ⟨b, e, h⟩ = 1 := by
      rw [Vec3.norm, Vec3.dot]
      rw [show b * b + e * e + h * h = 1 from hc11]
      exact Real.sqrt_one
    rw [fnormalize, hn2, max_eq_left (by norm_num : (1e-12 : ℝ) ≤ 1)]
    ext <;> simp [Vec3.divS]
  have hcross : Vec3.cross ⟨a, d, g⟩ ⟨b, e, h⟩ = ⟨c, f, i⟩ := by
    simp only [Vec3.cross]
    ext
    · linear_combination -hk20
    · linear_combination -hk21
    · linear_combination -hk22
  simp only [rot6d_to_rotmat1, rotmat_to_rot6d1]
  rw [hb1, hsub, hb2, hcross]

/-- C5: on every batch of orthonormal proper rotation matrices, the 6D round
trip `rot6d_to_rotmat ∘ rotmat_to_rot6d` reproduces the batch exactly:
already-orthonormal columns are a fixed point of Gram-Schmidt and the cross
product of the first two columns recovers the third. -/
theorem rot6d_roundtrip (Rs : List Mat3) (hR : ∀ R ∈ Rs, IsRotation R) :
    rot6d_to_rotmat (rotmat_to_rot6d Rs) = Rs := by
  revert hR
  induction Rs with
  | nil => intro _; rfl
  | cons R rest ih =>
    intro hR
    simp only [rotmat_to_rot6d, rot6d_to_rotmat, List.map_cons] at ih ⊢
    rw [rot6d_roundtrip1 R (hR R (List.mem_cons_self R rest)),
      ih (fun X hX => hR X (List.mem_cons_of_mem _ hX))]

/-- The identity matrix is a valid rotation. -/
lemma identity_is_rotation : IsRotation Mat3.identity := by
  refine ⟨?_, ?_, ?_, ?_, ?_, ?_, ?_⟩ <;>
    norm_num [Mat3.identity, Mat3.col0, Mat3.col1, Mat3.col2, Vec3.dot, Mat3.det]

/-- Witness for C5 at the identity rotation. -/
theorem rot6d_roundtrip_witness :
    (∀ R ∈ [Mat3.identity], IsRotation R) ∧
    rot6d_to_rotmat (rotmat_to_rot6d [Mat3.identity]) = [Mat3.identity] := by
  have hrot : ∀ R ∈ [Mat3.identity], IsRotation R := by
    intro R hRm
    simp only [List.mem_singleton] at hRm
    subst hRm
    exact identity_is_rotation
  exact ⟨hrot, rot6d_roundtrip _ hrot⟩

def Mat3.add (M N : Mat3) : Mat3 :=
  ⟨M.m00 + N.m00, M.m01 + N.m01, M.m02 + N.m02,
   M.m10 + N.m10, M.m11 + N.m11, M.m12 + N.m12,
   M.m20 + N.m20, M.m21 + N.m21, M.m22 + N.m22⟩

def Mat3.zero : Mat3 := ⟨0, 0, 0, 0, 0, 0, 0, 0, 0⟩

def Vec3.zero : Vec3 := ⟨0, 0, 0⟩

/-- Rank-one symmetric product `row^T * row` of a residual row. -/
def outer_self (u : Vec3) : Mat3 :=
  ⟨u.x * u.x, u.x * u.y, u.x * u.z,
   u.y * u.x, u.y * u.y, u.y * u.z,
   u.z * u.x, u.z * u.y, u.z * u.z⟩

/-- One 2D/3D joint correspondence: 3D position, observed 2D point and
confidence (one row each of `S`, `joints_2d`, `joints_conf`). -/
structure Joint where
  S : Vec3
  p2d : Vec2
  conf : ℝ

/-- `√conf`-weighted x-axis residual row of `Q` (geometry.py lines 513-524):
`√conf · (f, 0, cx − u)`. -/
def lsq_row_x (f cx : ℝ) (j : Joint) : Vec3 :=
  ⟨Real.sqrt j.conf * f, Real.sqrt j.conf * 0, Real.sqrt j.conf * (cx - j.p2d.x)⟩

/-- `√conf`-weighted y-axis residual row of `Q`: `√conf · (0, f, cy − v)`. -/
def lsq_row_y (f cy : ℝ) (j : Joint) : Vec3 :=
  ⟨Real.sqrt j.conf * 0, Real.sqrt j.conf * f, Real.sqrt j.conf * (cy - j.p2d.y)⟩

/-- `√conf`-weighted x entry of `c`: `√conf · ((u − cx)·Z − f·X)`. -/
def lsq_c_x (f cx : ℝ) (j : Joint) : ℝ :=
  Real.sqrt j.conf * ((j.p2d.x - cx) * j.S.z - f * j.S.x)

/-- `√conf`-weighted y entry of `c`: `√conf · ((v − cy)·Z − f·Y)`. -/
def lsq_c_y (f cy : ℝ) (j : Joint) : ℝ :=
  Real.sqrt j.conf * ((j.p2d.y - cy) * j.S.z - f * j.S.y)

/-- The normal matrix `A = Qᵀ W ᵀ W Q` accumulated over all joints and both
image axes (geometry.py lines 527-528). -/
def lsq_A (f cx cy : ℝ) (joints : List Joint) : Mat3 :=
  (joints.map fun j => (outer_self (lsq_row_x f cx j)).add (outer_self (lsq_row_y f cy j))).foldr
    Mat3.add Mat3.zero

/-- The right-hand side `b = Qᵀ Wᵀ W c` (line 529). -/
def lsq_b (f cx cy : ℝ) (joints : List Joint) : Vec3 :=
  (joints.map fun j => (Vec3.smul (lsq_c_x f cx j) (lsq_row_x f cx j)).add
      (Vec3.smul (lsq_c_y f cy j) (lsq_row_y f cy j))).foldr
    Vec3.add Vec3.zero

/-- `np.linalg.solve` on the 3x3 normal system, modelled as the exact solution
by Cramer's rule: `np.linalg.solve` returns the exact solution of a
nonsingular system and raises on a singular one. -/
def solve3 (A : Mat3) (b : Vec3) : Vec3 :=
  ⟨Mat3.det ⟨b.x, A.m01, A.m02, b.y, A.m11, A.m12, b.z, A.m21, A.m22⟩ / A.det,
   Mat3.det ⟨A.m00, b.x, A.m02, A.m10, b.y, A.m12, A.m20, b.z, A.m22⟩ / A.det,
   Mat3.det ⟨A.m00, A.m01, b.x, A.m10, A.m11, b.y, A.m20, A.m21, b.z⟩ / A.det⟩

/-- `estimate_translation_np` (geometry.py lines 493-534): assemble the
`√conf`-weighted stacked system and solve the normal equations.  The optical
center is `(img_size[1]/2, img_size[0]/2)`. -/
def estimate_translation_np (joints : List Joint) (focal_length : ℝ) (img_size : ℝ × ℝ) :
    Vec3 :=
  let cx := img_size.2 / 2
  let cy := img_size.1 / 2
  solve3 (lsq_A focal_length cx cy joints) (lsq_b focal_length cx cy joints)

lemma mat3_add_mulVec (M N : Mat3) (v : Vec3) :
    (M.add N).mulVec v = (M.mulVec v).add (N.mulVec v) := by
  simp only [Mat3.add, Mat3.mulVec, Vec3.add]
  ext <;> ring

lemma outer_self_mulVec (u v : Vec3) :
    (outer_self u).mulVec v = Vec3.smul (u.dot v) u := by
  simp only [outer_self, Mat3.mulVec, Vec3.smul, Vec3.dot]
  ext <;> ring

/-- A joint whose 2D observation is the exact pinhole projection of `S + t`
satisfies both of its residual equations. -/
lemma joint_rows_satisfied (f cx cy : ℝ) (t : Vec3) (j : Joint)
    (hz : j.S.z + t.z ≠ 0)
    (hu : j.p2d.x = f * (j.S.x + t.x) / (j.S.z + t.z) + cx)
    (hv : j.p2d.y = f * (j.S.y + t.y) / (j.S.z + t.z) + cy) :
    (lsq_row_x f cx j).dot t = lsq_c_x f cx j ∧
    (lsq_row_y f cy j).dot t = lsq_c_y f cy j := by
  constructor
  · simp only [lsq_row_x, lsq_c_x, Vec3.dot, hu]
    field_simp
    ring
  · simp only [lsq_row_y, lsq_c_y, Vec3.dot, hv]
    field_simp
    ring

/-- The exact translation solves the accumulated normal system. -/
lemma lsq_system (f cx cy : ℝ) (t : Vec3) (joints : List Joint)
    (hs : ∀ j ∈ joints, (lsq_row_x f cx j).dot t = lsq_c_x f cx j ∧
      (lsq_row_y f cy j).dot t = lsq_c_y f cy j) :
    (lsq_A f cx cy joints).mulVec t = lsq_b f cx cy joints := by
  revert hs
  induction joints with
  | nil =>
    intro _
    simp only [lsq_A, lsq_b, List.map_nil, List.foldr_nil]
    simp [Mat3.zero, Mat3.mulVec, Vec3.zero]
  | cons j rest ih =>
    intro hs
    obtain ⟨hx, hy⟩ := hs j (List.mem_cons_self j rest)
    have hrest := ih (fun X hX => hs X (List.mem_cons_of_mem _ hX))
    simp only [lsq_A, lsq_b, List.map_cons, List.foldr_cons] at hrest ⊢
    rw [mat3_add_mulVec, mat3_add_mulVec, outer_self_mulVec, outer_self_mulVec, hx, hy, hrest]

/-- Cramer's rule inverts the matrix-vector product on nonsingular systems. -/
lemma solve3_mulVec (A : Mat3) (t : Vec3) (hdet : A.det ≠ 0) :
    solve3 A (A.mulVec t) = t := by
  obtain ⟨a00, a01, a02, a10, a11, a12, a20, a21, a22⟩ := A
  obtain ⟨tx, ty, tz⟩ := t
  simp only [solve3, Mat3.mulVec, Mat3.det] at hdet ⊢
  ext
  · rw [div_eq_iff hdet]
    ring
  · rw [div_eq_iff hdet]
    ring
  · rw [div_eq_iff hdet]
    ring

/-- C4: on at least 6 joints whose 2D observations are exact noiseless pinhole
projections of `S + t*` (identity rotation) with all confidences 1 and a
nonsingular normal matrix, `estimate_translation_np` returns exactly `t*`. -/
theorem estimate_translation_np_recovers (joints : List Joint) (f : ℝ)
    (img_size : ℝ × ℝ) (t : Vec3)
    (h6 : 6 ≤ joints.length)
    (hconf : ∀ j ∈ joints, j.conf = 1)
    (hz : ∀ j ∈ joints, j.S.z + t.z ≠ 0)
    (hproj : ∀ j ∈ joints,
      j.p2d.x = f * (j.S.x + t.x) / (j.S.z + t.z) + img_size.2 / 2 ∧
      j.p2d.y = f * (j.S.y + t.y) / (j.S.z + t.z) + img_size.1 / 2)
    (hdet : (lsq_A f (img_size.2 / 2) (img_size.1 / 2) joints).det ≠ 0) :
    estimate_translation_np joints f img_size = t := by
  have hAt : (lsq_A f (img_size.2 / 2) (img_size.1 / 2) joints).mulVec t =
      lsq_b f (img_size.2 / 2) (img_size.1 / 2) joints := by
    apply lsq_system
    intro j hj
    exact joint_rows_satisfied _ _ _ _ _ (hz j hj) (hproj j hj).1 (hproj j hj).2
  simp only [estimate_translation_np]
  rw [← hAt]
  exact solve3_mulVec _ _ hdet

/-- Witness for C4: six non-collinear joints, translation `(0,0,5)`, focal 1,
center `(0,0)`, exact projections, confidence 1; the normal matrix is
`[[6,0,-1],[0,6,-1],[-1,-1,6]]` with determinant 204. -/
theorem estimate_translation_np_recovers_witness :
    estimate_translation_np
      [⟨⟨0, 0, 0⟩, ⟨0, 0⟩, 1⟩, ⟨⟨5, 0, 0⟩, ⟨1, 0⟩, 1⟩, ⟨⟨0, 5, 0⟩, ⟨0, 1⟩, 1⟩,
       ⟨⟨5, 5, 0⟩, ⟨1, 1⟩, 1⟩, ⟨⟨-5, 0, 0⟩, ⟨-1, 0⟩, 1⟩, ⟨⟨0, -5, 0⟩, ⟨0, -1⟩, 1⟩]
      1 (0, 0) = ⟨0, 0, 5⟩ := by
  apply estimate_translation_np_recovers
  · norm_num
  · intro j hj
    simp only [List.mem_cons, List.not_mem_nil, or_false] at hj
    rcases hj with rfl | rfl | rfl | rfl | rfl | rfl <;> norm_num
  · intro j hj
    simp only [List.mem_cons, List.not_mem_nil, or_false] at hj
    rcases hj with rfl | rfl | rfl | rfl | rfl | rfl <;> norm_num
  · intro j hj
    simp only [List.mem_cons, List.not_mem_nil, or_false] at hj
    rcases hj with rfl | rfl | rfl | rfl | rfl | rfl <;> constructor <;> norm_num
  · simp only [lsq_A, lsq_row_x, lsq_row_y, outer_self, Mat3.add, Mat3.zero, Mat3.det,
      List.map_cons, List.map_nil, List.foldr_cons, List.foldr_nil]
    norm_num [Real.sqrt_one]

/-- `compute_twist_rotation` (geometry.py lines 650-680), one batch element:
convert to quaternion, normalize the twist axis (adding 1e-9 to the norm),
project the quaternion's vector part onto the axis, re-normalize the twist
quaternion (adding 1e-9 again), convert back to a matrix and to axis-angle;
the scalar angle is the component sum of the axis-angle vector divided by the
component sum of the normalized axis. -/
def compute_twist_rotation1 (rotation_matrix : Mat3) (twist_axis : Vec3) : Mat3 × ℝ :=
  let quaternion := rotation_matrix_to_quaternion1 rotation_matrix
  let axis := twist_axis.divS (twist_axis.norm + 1e-9)
  let pr := Vec3.smul (axis.dot ⟨quaternion.x, quaternion.y, quaternion.z⟩) axis
  let twist_quaternion : Quat4 := ⟨quaternion.w, pr.x, pr.y, pr.z⟩
  let tq := twist_quaternion.divS (twist_quaternion.norm + 1e-9)
  let twist_rotation := quaternion_to_rotation_matrix1 tq
  let twist_aa := quaternion_to_angle_axis1 tq
  let twist_angle := twist_aa.sum / axis.sum
  (twist_rotation, twist_angle)

/-- The rotation by π about the diagonal axis `(1,1,1)/√3`. -/
def RotDiagPi : Mat3 :=
  ⟨-(1/3), 2/3, 2/3, 2/3, -(1/3), 2/3, 2/3, 2/3, -(1/3)⟩

lemma quat_norm_diag (u : ℝ) (hu : 0 ≤ u) :
    Quat4.norm ⟨0, u, u, u⟩ = u * Real.sqrt 3 := by
  rw [Quat4.norm, show (0:ℝ) ^ 2 + u ^ 2 + u ^ 2 + u ^ 2 = u ^ 2 * 3 by ring,
    Real.sqrt_mul (sq_nonneg u), Real.sqrt_sq hu]

lemma quaternion_diag_rotmat (u : ℝ) (hu : 0 < u) :
    quaternion_to_rotation_matrix1 ⟨0, u, u, u⟩ = RotDiagPi := by
  have hs2 : Real.sqrt 3 ^ 2 = 3 := Real.sq_sqrt (by norm_num)
  have hs : 0 < Real.sqrt 3 := Real.sqrt_pos.2 (by norm_num)
  have hn := quat_norm_diag u hu.le
  have hne : u * Real.sqrt 3 ≠ 0 := by positivity
  have hs4 : Real.sqrt 3 ^ 4 = 9 := by
    rw [show (4 : ℕ) = 2 * 2 from rfl, pow_mul, hs2]
    norm_num
  have hs6 : Real.sqrt 3 ^ 6 = 27 := by
    rw [show (6 : ℕ) = 2 * 3 from rfl, pow_mul, hs2]
    norm_num
  simp only [quaternion_to_rotation_matrix1, hn, RotDiagPi]
  ext <;> field_simp <;> ring_nf <;> (try simp only [hs2, hs4, hs6]) <;> (try norm_num) <;>
    (try ring)

lemma quaternion_diag_angle_axis (u : ℝ) (hu : 0 < u) :
    quaternion_to_angle_axis1 ⟨0, u, u, u⟩ =
      ⟨Real.pi / Real.sqrt 3, Real.pi / Real.sqrt 3, Real.pi / Real.sqrt 3⟩ := by
  have hs : 0 < Real.sqrt 3 := Real.sqrt_pos.2 (by norm_num)
  have hsq : Real.sqrt (u * u + u * u + u * u) = u * Real.sqrt 3 := by
    rw [show u * u + u * u + u * u = u ^ 2 * 3 by ring,
      Real.sqrt_mul (sq_nonneg u), Real.sqrt_sq hu.le]
  have hpos : (0:ℝ) < u * u + u * u + u * u := by nlinarith
  have hat : atan2 (u * Real.sqrt 3) 0 = Real.pi / 2 := by
    unfold atan2
    rw [if_neg (lt_irrefl (0:ℝ)), if_neg (lt_irrefl (0:ℝ)), if_pos (by positivity)]
  simp only [quaternion_to_angle_axis1, hsq]
  rw [if_neg (lt_irrefl (0:ℝ)), if_pos hpos, hat]
  ext <;> field_simp <;> ring

lemma rmq_RotDiagPi : rotation_matrix_to_quaternion1 RotDiagPi =
    ⟨0, Real.sqrt 3 / 3, Real.sqrt 3 / 3, Real.sqrt 3 / 3⟩ := by
  have hs : 0 < Real.sqrt 3 := Real.sqrt_pos.2 (by norm_num)
  have hs2 : Real.sqrt 3 ^ 2 = 3 := Real.sq_sqrt (by norm_num)
  have h43 : Real.sqrt (4 / 3) = 2 / Real.sqrt 3 := by
    rw [show (4 / 3 : ℝ) = (2 / Real.sqrt 3) ^ 2 by rw [div_pow, hs2]; norm_num]
    exact Real.sqrt_sq (by positivity)
  simp only [rotation_matrix_to_quaternion1, RotDiagPi, Quat4.add, Quat4.smul, Quat4.divS]
  ext <;> norm_num [h43] <;> field_simp <;> ring

/-- Exact evaluation of the twist decomposition at the rotation by π about
`(1,1,1)/√3` with the twist axis `(1,1,1)`: the twist rotation is recovered
exactly, but the angle carries the factor `(√3 + 1e-9)/√3` introduced by the
epsilon added to the axis norm. -/
lemma twist_eval_RotDiagPi :
    compute_twist_rotation1 RotDiagPi ⟨1, 1, 1⟩ =
      (RotDiagPi, Real.pi * ((Real.sqrt 3 + 1e-9) / Real.sqrt 3)) := by
  have hs : 0 < Real.sqrt 3 := Real.sqrt_pos.2 (by norm_num)
  have hsne : Real.sqrt 3 ≠ 0 := hs.ne'
  have hA : (0:ℝ) < Real.sqrt 3 + 1e-9 := by positivity
  have hAne : Real.sqrt 3 + 1e-9 ≠ 0 := hA.ne'
  have hn111 : Vec3.norm ⟨1, 1, 1⟩ = Real.sqrt 3 := by
    rw [Vec3.norm, Vec3.dot]
    norm_num
  have hc : (0:ℝ) < Real.sqrt 3 / (Real.sqrt 3 + 1e-9) ^ 2 := by positivity
  have hcD : (0:ℝ) < Real.sqrt 3 / (Real.sqrt 3 + 1e-9) ^ 2 /
      (Real.sqrt 3 / (Real.sqrt 3 + 1e-9) ^ 2 * Real.sqrt 3 + 1e-9) := by positivity
  have hdot : Vec3.dot (Vec3.divS ⟨1, 1, 1⟩ (Real.sqrt 3 + 1e-9))
      ⟨Real.sqrt 3 / 3, Real.sqrt 3 / 3, Real.sqrt 3 / 3⟩
      = Real.sqrt 3 / (Real.sqrt 3 + 1e-9) := by
    simp only [Vec3.dot, Vec3.divS]
    field_simp
    ring
  have hpr : Vec3.smul (Real.sqrt 3 / (Real.sqrt 3 + 1e-9))
      (Vec3.divS ⟨1, 1, 1⟩ (Real.sqrt 3 + 1e-9)) =
      ⟨Real.sqrt 3 / (Real.sqrt 3 + 1e-9) ^ 2, Real.sqrt 3 / (Real.sqrt 3 + 1e-9) ^ 2,
       Real.sqrt 3 / (Real.sqrt 3 + 1e-9) ^ 2⟩ := by
    simp only [Vec3.smul, Vec3.divS]
    ext <;> field_simp <;> ring
  have hqn := quat_norm_diag (Real.sqrt 3 / (Real.sqrt 3 + 1e-9) ^ 2) hc.le
  have hdiv : Quat4.divS
      ⟨0, Real.sqrt 3 / (Real.sqrt 3 + 1e-9) ^ 2, Real.sqrt 3 / (Real.sqrt 3 + 1e-9) ^ 2,
       Real.sqrt 3 / (Real.sqrt 3 + 1e-9) ^ 2⟩
      (Real.sqrt 3 / (Real.sqrt 3 + 1e-9) ^ 2 * Real.sqrt 3 + 1e-9) =
      ⟨0, Real.sqrt 3 / (Real.sqrt 3 + 1e-9) ^ 2 /
            (Real.sqrt 3 / (Real.sqrt 3 + 1e-9) ^ 2 * Real.sqrt 3 + 1e-9),
       Real.sqrt 3 / (Real.sqrt 3 + 1e-9) ^ 2 /
            (Real.sqrt 3 / (Real.sqrt 3 + 1e-9) ^ 2 * Real.sqrt 3 + 1e-9),
       Real.sqrt 3 / (Real.sqrt 3 + 1e-9) ^ 2 /
            (Real.sqrt 3 / (Real.sqrt 3 + 1e-9) ^ 2 * Real.sqrt 3 + 1e-9)⟩ := by
    simp only [Quat4.divS]
    ext <;> simp [zero_div]
  simp only [compute_twist_rotation1, rmq_RotDiagPi, hn111, hdot, hpr, hqn, hdiv,
    quaternion_diag_rotmat _ hcD, quaternion_diag_angle_axis _ hcD]
  simp only [Prod.mk.injEq]
  refine ⟨trivial, ?_⟩
  simp only [Vec3.sum, Vec3.divS]
  field_simp
  ring

/-- C8 counterexample: for the pure rotation by π about the axis `(1,1,1)`
(which has no zero components), the twist angle returned by
`compute_twist_rotation` is `π·(√3+1e-9)/√3`, which equals neither `θ = π`
nor `-π`: exact angle recovery fails because of the 1e-9 added to the axis
norm before normalization. -/
theorem compute_twist_rotation_angle_not_theta :
    (compute_twist_rotation1 RotDiagPi ⟨1, 1, 1⟩).2 ≠ Real.pi ∧
    (compute_twist_rotation1 RotDiagPi ⟨1, 1, 1⟩).2 ≠ -Real.pi := by
  simp only [twist_eval_RotDiagPi]
  have hs : 0 < Real.sqrt 3 := Real.sqrt_pos.2 (by norm_num)
  have hgt : Real.pi < Real.pi * ((Real.sqrt 3 + 1e-9) / Real.sqrt 3) := by
    have h1 : (1:ℝ) < (Real.sqrt 3 + 1e-9) / Real.sqrt 3 := by
      rw [lt_div_iff₀ hs]
      linarith
    nlinarith [Real.pi_pos]
  constructor
  · exact (ne_of_lt hgt).symm
  · intro hEq
    nlinarith [Real.pi_pos]

/-- C8 amended: decomposing the rotation by π about the axis `(1,1,1)` (a
valid rotation) returns the twist rotation exactly equal to the input (so the
swing component is the identity), but the twist angle equals `θ` scaled by
`(‖a‖+1e-9)/‖a‖` — the factor introduced by the epsilon added to the axis
norm — rather than exactly `θ`. -/
theorem compute_twist_rotation_pi_about_diagonal :
    IsRotation RotDiagPi ∧
    (compute_twist_rotation1 RotDiagPi ⟨1, 1, 1⟩).1 = RotDiagPi ∧
    (compute_twist_rotation1 RotDiagPi ⟨1, 1, 1⟩).2 =
      Real.pi * ((Real.sqrt 3 + 1e-9) / Real.sqrt 3) := by
  refine ⟨?_, ?_, ?_⟩
  · refine ⟨?_, ?_, ?_, ?_, ?_, ?_, ?_⟩ <;>
      norm_num [RotDiagPi, Mat3.col0, Mat3.col1, Mat3.col2, Vec3.dot, Mat3.det]
  · simp only [twist_eval_RotDiagPi]
  · simp only [twist_eval_RotDiagPi]

end
